import Mathlib

/-!
Verification of the lineage layout subsystem of the data-product catalog
frontend (`src/frontend/src/pages/LineagePage.tsx`) and of the lineage API
client (`src/frontend/src/api/client.ts`).

The layout function `getDAGLayout` delegates node positioning to the external
`@dagrejs/dagre` library.  The library is not part of this repository, so it
is modelled as an opaque parameter `DagreFun`: a pure function from the graph
handed to dagre (node records carrying width/height, plus the edge list) and a
node id to the center coordinates reported by `dagre.layout`.  Everything the
repository's own code does around that call is embedded faithfully below.

JavaScript numbers are modelled as rationals; all concrete constants in the
source (180, 80, 50, 20, 30, 2.5, 0.83, 1.66, ...) are exactly representable.
-/

set_option maxHeartbeats 1000000

namespace Lineage

/-! ## Layout constants (LineagePage.tsx lines 30-33) -/

def NODE_WIDTH : ℚ := 180
def NODE_HEIGHT : ℚ := 80
def RANK_SEP : ℚ := 180
def NODE_SEP : ℚ := 60

/-! ## Depth-based color scheme (LineagePage.tsx lines 36-62) -/

/-- One entry of the `DEPTH_COLORS` record: the Tailwind class triple. -/
structure ColorSpec where
  bg : String
  border : String
  text : String
deriving DecidableEq, Repr

/-- The bucket for depth `0` (the focal node), `DEPTH_COLORS['0']`. -/
def focalColors : ColorSpec :=
  ⟨"bg-cyan-500/20", "border-cyan-500", "text-cyan-400"⟩

/-- The `DEPTH_COLORS` record, keyed by the decimal string of the clamped
depth, in the order the source lists the keys. -/
def DEPTH_COLORS : List (String × ColorSpec) :=
  [("-5", ⟨"bg-red-500/20", "border-red-500/60", "text-red-400"⟩),
   ("-4", ⟨"bg-orange-500/20", "border-orange-500/60", "text-orange-400"⟩),
   ("-3", ⟨"bg-orange-500/20", "border-orange-500/50", "text-orange-400"⟩),
   ("-2", ⟨"bg-amber-500/20", "border-amber-500/50", "text-amber-400"⟩),
   ("-1", ⟨"bg-yellow-500/20", "border-yellow-500/50", "text-yellow-400"⟩),
   ("0", focalColors),
   ("1", ⟨"bg-emerald-500/20", "border-emerald-500/50", "text-emerald-400"⟩),
   ("2", ⟨"bg-teal-500/20", "border-teal-500/50", "text-teal-400"⟩),
   ("3", ⟨"bg-sky-500/20", "border-sky-500/50", "text-sky-400"⟩),
   ("4", ⟨"bg-blue-500/20", "border-blue-500/50", "text-blue-400"⟩),
   ("5", ⟨"bg-indigo-500/20", "border-indigo-500/60", "text-indigo-400"⟩)]

/-- `getDepthColors` (LineagePage.tsx lines 59-62):
clamp the depth to `[-5, 5]`, convert to a string, look the bucket up in
`DEPTH_COLORS`, falling back to the `'0'` bucket (JS `||`). -/
def getDepthColors (depth : Int) : ColorSpec :=
  let clampedDepth := toString (max (-5) (min 5 depth))
  match DEPTH_COLORS.find? (fun p => p.1 == clampedDepth) with
  | some p => p.2
  | none => focalColors

/-! ## Domain color palette (LineagePage.tsx lines 51-57) -/

def DOMAIN_COLORS : List String :=
  ["rgba(6, 182, 212, 0.08)",
   "rgba(16, 185, 129, 0.08)",
   "rgba(245, 158, 11, 0.08)",
   "rgba(139, 92, 246, 0.08)",
   "rgba(236, 72, 153, 0.08)"]

/-! ## Particle-flow animation contract (`AnimatedDataFlowEdge`,
LineagePage.tsx lines 210-219): SVG `animateMotion` parameters of the
markers placed on every rendered edge. -/

/-- Timing attributes of one `animateMotion` circle: loop duration in
seconds, start offset in seconds, and repeat count (`none` = indefinite). -/
structure FlowMarker where
  dur : ℚ
  startAt : ℚ
  repeatCount : Option Nat
deriving DecidableEq, Repr

/-- The three `lineage-particle` circles: `dur="2.5s"` each, `begin`
defaulting to `0s` for the first and set to `0.83s` and `1.66s` for the
second and third. -/
def particleMarkers : List FlowMarker :=
  [⟨2.5, 0, none⟩, ⟨2.5, 0.83, none⟩, ⟨2.5, 1.66, none⟩]

/-- The separate arrow-marker circle (`dur="0.001s" repeatCount="1"`);
not a flow particle. -/
def arrowMarker : FlowMarker := ⟨0.001, 0, some 1⟩

/-! ## Lineage API client (`lineageApi.get`, client.ts lines 82-95) -/

/-- The query parameters assembled by `lineageApi.get`.  Both guards are JS
truthiness tests: an absent or empty direction adds nothing, and a depth of
`0` is falsy, so it adds nothing either. -/
def lineageQueryParams (direction : Option String) (depth : Option Int) :
    List (String × String) :=
  (match direction with
   | some d => if d = "" then [] else [("direction", d)]
   | none => []) ++
  (match depth with
   | some n => if n = 0 then [] else [("depth", toString n)]
   | none => [])

/-- `URLSearchParams.toString` over the assembled parameters.  Every value
the client ever passes (a direction enum word or a decimal integer) is
URL-safe, so percent-encoding is the identity on them and is omitted. -/
def queryString (ps : List (String × String)) : String :=
  String.intercalate "&" (ps.map (fun p => p.1 ++ "=" ++ p.2))

/-- The request path built by `lineageApi.get`; `encodedUri` stands for
`encodeURIComponent(uri)`, which only affects the path segment. -/
def lineageGetUrl (encodedUri : String) (direction : Option String)
    (depth : Option Int) : String :=
  let query := queryString (lineageQueryParams direction depth)
  "/api/v1/lineage/" ++ encodedUri ++ (if query = "" then "" else "?" ++ query)

/-! ## Graph data model (`api/types.ts` and the node fields read by
`getDAGLayout`) -/

/-- A traversal-result node as consumed by `getDAGLayout`: the fields of the
`LineageNode` interface plus the `domain_label` and `depth` fields the page
reads off each node. Optional TS fields become `Option`. -/
structure LineageNode where
  uri : String
  label : String
  status_uri : Option String := none
  domain_label : Option String := none
  domain_uri : Option String := none
  is_source : Bool := false
  depth : Int := 0
deriving DecidableEq, Repr

/-- A traversal-result edge (`LineageEdge` interface). -/
structure LineageEdge where
  source : String
  target : String
  port_label : Option String := none
deriving DecidableEq, Repr

/-- A laid-out React Flow node as built by `getDAGLayout` (lines 117-137):
id, position, and the `data` payload. -/
structure FlowNode where
  id : String
  position : ℚ × ℚ
  label : String
  status : Option String
  domain : Option String
  domainUri : Option String
  isSource : Bool
  depth : Int
deriving DecidableEq, Repr

/-- A React Flow edge as built by `getDAGLayout` (lines 139-146). -/
structure FlowEdge where
  id : String
  source : String
  target : String
  label : Option String
  etype : String
  markerColor : String
deriving DecidableEq, Repr

/-- Axis-aligned bounding rectangle of a domain group. -/
structure GroupBounds where
  minX : ℚ
  maxX : ℚ
  minY : ℚ
  maxY : ℚ
deriving DecidableEq, Repr

/-- A `DomainGroup` (lines 64-69). -/
structure DomainGroup where
  domain : String
  label : String
  bounds : GroupBounds
  color : String
deriving DecidableEq, Repr

/-- The record returned by `getDAGLayout`. -/
structure LayoutResult where
  nodes : List FlowNode
  edges : List FlowEdge
  domainGroups : List DomainGroup
deriving DecidableEq, Repr

/-! ## The dagre collaborator -/

/-- The external `@dagrejs/dagre` layout, modelled as an opaque pure
function: given the node records handed to dagre (`uri`, width, height), the
edge pairs handed to dagre, and a node id, it returns the center coordinates
`g.node(uri)` reported after `dagre.layout(g)`.  The graph configuration
(rankdir LR, ranksep 180, nodesep 60, margins 50) is fixed in the source, so
it is folded into the function. -/
def DagreFun : Type :=
  List (String × ℚ × ℚ) → List (String × String) → String → ℚ × ℚ

/-- The node records added to the dagre graph (lines 109-114): each node's
`uri` with `NODE_WIDTH`/`NODE_HEIGHT`. -/
def dagreNodes (ns : List LineageNode) : List (String × ℚ × ℚ) :=
  ns.map (fun n => (n.uri, NODE_WIDTH, NODE_HEIGHT))

/-- The edge pairs added to the dagre graph (lines 117-119). -/
def dagreEdges (es : List LineageEdge) : List (String × String) :=
  es.map (fun e => (e.source, e.target))

/-! ## getDAGLayout (LineagePage.tsx lines 86-182) -/

/-- JS `a || b` on two optional strings: the empty string is falsy. -/
def jsOrEmpty (a b : Option String) : Option String :=
  match a with
  | some s => if s = "" then b else some s
  | none => b

/-- `s.split(sep).pop()`: the last piece of the split (the split of any
string is nonempty, so `pop` always yields a piece). -/
def lastSegment (s sep : String) : String :=
  (s.splitOn sep).getLastD ""

/-- The React Flow node built from one lineage node (lines 117-137): the
dagre-reported center is shifted by half the node extents, and the `data`
payload is copied off the lineage node, with the status name extracted from
the status URI. -/
def toFlowNode (center : ℚ × ℚ) (node : LineageNode) : FlowNode :=
  { id := node.uri
    position := (center.1 - NODE_WIDTH / 2, center.2 - NODE_HEIGHT / 2)
    label := node.label
    status := jsOrEmpty (node.status_uri.map (fun s => lastSegment s ":"))
                        (node.status_uri.map (fun s => lastSegment s "/"))
    domain := node.domain_label
    domainUri := node.domain_uri
    isSource := node.is_source
    depth := node.depth }

/-- The node-conversion pass of `getDAGLayout`: every lineage node is mapped,
its center looked up from the dagre layout of the full graph. -/
def layoutNodes (dagreF : DagreFun) (ns : List LineageNode)
    (es : List LineageEdge) : List FlowNode :=
  ns.map (fun node => toFlowNode (dagreF (dagreNodes ns) (dagreEdges es) node.uri) node)

/-- The edge-conversion pass (lines 139-146): `lineageEdges.map((edge,
index) => ...)`, ids `e0, e1, ...`, endpoints copied verbatim. -/
def mkFlowEdges : List LineageEdge → Nat → List FlowEdge
  | [], _ => []
  | e :: rest, i =>
      { id := "e" ++ toString i
        source := e.source
        target := e.target
        label := e.port_label
        etype := "animatedEdge"
        markerColor := "#64748b" } :: mkFlowEdges rest (i + 1)

/-- The map key used when bucketing a node by domain (line 151):
`node.data.domainUri || 'uncategorized'`. -/
def domainKey (n : FlowNode) : String :=
  match n.domainUri with
  | some s => if s = "" then "uncategorized" else s
  | none => "uncategorized"

/-- The label stored when a domain bucket is first created (line 152):
`node.data.domain || 'Uncategorized'`. -/
def domainLabelOf (n : FlowNode) : String :=
  match n.domain with
  | some s => if s = "" then "Uncategorized" else s
  | none => "Uncategorized"

/-- The same bucketing key expressed on the raw lineage node (`domainUri` is
copied verbatim from `domain_uri`). -/
def lineageDomainKey (n : LineageNode) : String :=
  match n.domain_uri with
  | some s => if s = "" then "uncategorized" else s
  | none => "uncategorized"

/-- The insertion-ordered `domainMap`: key, label of the first member, and
the member nodes in encounter order (a JS `Map` preserves insertion
order). -/
abbrev DomainMap : Type := List (String × String × List FlowNode)

/-- One step of the `nodes.forEach` loop filling `domainMap` (lines
149-157): create the bucket on first encounter, then push the node onto its
bucket. -/
def addDomain (m : DomainMap) (n : FlowNode) : DomainMap :=
  let key := domainKey n
  if m.any (fun p => p.1 == key) then
    m.map (fun p => if p.1 = key then (p.1, p.2.1, p.2.2 ++ [n]) else p)
  else
    m ++ [(key, domainLabelOf n, [n])]

/-- The full `domainMap` built from the laid-out nodes. -/
def buildDomainMap (ns : List FlowNode) : DomainMap :=
  ns.foldl addDomain []

/-- `Math.min(...xs)` over a nonempty spread (the empty case never occurs in
the source because buckets entering it have 2+ members). -/
def spreadMin : List ℚ → ℚ
  | [] => 0
  | x :: xs => xs.foldl min x

/-- `Math.max(...xs)` over a nonempty spread. -/
def spreadMax : List ℚ → ℚ
  | [] => 0
  | x :: xs => xs.foldl max x

/-- The group record pushed for one qualifying bucket (lines 164-176):
bounds are the min/max of the member corners expanded by the fixed
asymmetric padding, and the color is the next palette entry. -/
def groupOf (dom lbl : String) (members : List FlowNode)
    (colorIndex : Nat) : DomainGroup :=
  { domain := dom
    label := lbl
    bounds :=
      { minX := spreadMin (members.map (fun n => n.position.1)) - 20
        maxX := spreadMax (members.map (fun n => n.position.1)) + NODE_WIDTH + 20
        minY := spreadMin (members.map (fun n => n.position.2)) - 30
        maxY := spreadMax (members.map (fun n => n.position.2)) + NODE_HEIGHT + 20 }
    color := DOMAIN_COLORS.getD (colorIndex % DOMAIN_COLORS.length) "" }

/-- The `domainMap.forEach` loop producing `domainGroups` (lines 159-179):
buckets with more than one member yield a group with padded bounds and the
next palette color; `colorIndex` advances only on qualifying buckets. -/
def mkGroups : DomainMap → Nat → List DomainGroup
  | [], _ => []
  | (dom, lbl, members) :: rest, colorIndex =>
      if 1 < members.length then
        groupOf dom lbl members colorIndex :: mkGroups rest (colorIndex + 1)
      else mkGroups rest colorIndex

/-- `getDAGLayout` (lines 86-182), with the dagre call abstracted as
`dagreF`: convert nodes (dagre centers shifted to top-left corners), convert
edges verbatim, then compute domain groups from the converted nodes. -/
def getDAGLayout (dagreF : DagreFun) (lineageNodes : List LineageNode)
    (lineageEdges : List LineageEdge) : LayoutResult :=
  let nodes := layoutNodes dagreF lineageNodes lineageEdges
  { nodes := nodes
    edges := mkFlowEdges lineageEdges 0
    domainGroups := mkGroups (buildDomainMap nodes) 0 }

/-! ## Concrete inputs used by counterexamples and witnesses -/

/-- A dagre stand-in that puts every center at the origin. -/
def dagreConst : DagreFun := fun _ _ _ => (0, 0)

/-- A dagre stand-in reporting the center a lone node actually receives
under the source's configuration (margin 50 plus half extents). -/
def dagreLone : DagreFun := fun _ _ _ => (140, 90)

def nodeA : LineageNode := { uri := "a", label := "A" }

def nodeB0 : LineageNode := { uri := "b", label := "B" }

def nodeB1 : LineageNode := { uri := "b", label := "B", depth := 1 }

def nodeA3 : LineageNode := { uri := "a", label := "A", depth := 3 }

def edgeAB : LineageEdge := { source := "a", target := "b" }

/-! ## Specification views used for analysis -/

/-- The member list of the first bucket of a domain map carrying the given
key (every map built by `addDomain` has at most one bucket per key). -/
def entryMembers : DomainMap → String → List FlowNode
  | [], _ => []
  | (k, _, ms) :: rest, d => if k = d then ms else entryMembers rest d

/-- The keys of a list in first-encounter order, duplicates dropped. -/
def firstSeen (l : List String) : List String :=
  l.foldl (fun acc k => if k ∈ acc then acc else acc ++ [k]) []

/-- The minimum layer of the spec's coordinate formula, read off the depth
fields (`layer := depth`). -/
def specMinDepth (ns : List LineageNode) : Int :=
  ((ns.map LineageNode.depth).min?).getD 0

/-- Stated from the specification's words, for comparison with the code
(refinement check of the coordinate-assignment sentence): every laid-out
node satisfies `x = margin + (layer - minLayer) * (nodeWidth +
layerSeparation)` and `y = margin + orderIndexWithinLayer * (nodeHeight +
siblingSeparation)` with `layer = depth`, margin 50, and the source's node
extents and separations, for some intra-layer order index assignment. -/
def specCoordinateClaim (ns : List LineageNode) (out : List FlowNode) : Prop :=
  ∃ ord : String → ℚ,
    ∀ fn ∈ out, ∀ n ∈ ns, fn.id = n.uri →
      fn.position.1 = 50 + ((n.depth - specMinDepth ns : Int) : ℚ) * (NODE_WIDTH + RANK_SEP) ∧
      fn.position.2 = 50 + ord fn.id * (NODE_HEIGHT + NODE_SEP)

/-! ## Theorems -/

/-- C4: for every integer depth, `getDepthColors` clamps the depth to
`[-5, 5]` and maps it to one of the exactly 11 presentation buckets of
`DEPTH_COLORS`, whose keys are ordered `-5 .. 5`; depth `0` gets the focal
bucket, and the function is total (the fallback makes every input land in a
bucket). -/
theorem getDepthColors_total_clamped (d : Int) :
    DEPTH_COLORS.length = 11 ∧
    DEPTH_COLORS.map Prod.fst =
      ["-5", "-4", "-3", "-2", "-1", "0", "1", "2", "3", "4", "5"] ∧
    getDepthColors d = getDepthColors (max (-5) (min 5 d)) ∧
    getDepthColors d ∈ DEPTH_COLORS.map Prod.snd ∧
    getDepthColors 0 = focalColors := by
  have hmem : ∀ c : Int, -5 ≤ c → c ≤ 5 →
      getDepthColors c ∈ DEPTH_COLORS.map Prod.snd := by
    intro c h1 h2
    interval_cases c <;> decide
  have h1 : -5 ≤ max (-5) (min 5 d) := le_max_left _ _
  have h2 : max (-5) (min 5 d) ≤ 5 := max_le (by norm_num) (min_le_left _ _)
  have hclamp : getDepthColors d = getDepthColors (max (-5) (min 5 d)) := by
    simp only [getDepthColors]
    rw [min_eq_right h2, max_eq_right h1]
  exact ⟨rfl, rfl, hclamp, hclamp ▸ hmem _ h1 h2, by decide⟩

/-- C8 counterexample: the three flow markers loop with duration 2.5s, but
their start offsets are `0s`, `0.83s`, `1.66s`, which is not an exact
one-third stagger `0, 2.5/3, 2·(2.5/3)` of the loop period. -/
theorem particle_stagger_not_exact_third :
    particleMarkers.length = 3 ∧
    particleMarkers.map FlowMarker.dur = [2.5, 2.5, 2.5] ∧
    particleMarkers.map FlowMarker.repeatCount = [none, none, none] ∧
    particleMarkers.map FlowMarker.startAt = [0, 0.83, 1.66] ∧
    ¬ particleMarkers.map FlowMarker.startAt = [0, 2.5 / 3, 2 * (2.5 / 3)] := by
  refine ⟨rfl, rfl, rfl, rfl, ?_⟩
  norm_num [particleMarkers]

/-- C8 amended: every rendered edge carries exactly 3 flow markers traveling
the connector path over an indefinitely repeating loop of 2.5 seconds, with
start offsets `0s`, `0.83s`, `1.66s` — centisecond roundings of an even
one-third stagger, each within 1/100 s of `k·(2.5/3)` but not equal to it. -/
theorem particle_contract :
    particleMarkers.length = 3 ∧
    particleMarkers.map FlowMarker.dur = [2.5, 2.5, 2.5] ∧
    particleMarkers.map FlowMarker.repeatCount = [none, none, none] ∧
    particleMarkers.map FlowMarker.startAt = [0, 0.83, 1.66] ∧
    |(0.83 : ℚ) - 2.5 / 3| ≤ 1 / 100 ∧
    |(1.66 : ℚ) - 2 * (2.5 / 3)| ≤ 1 / 100 := by
  refine ⟨rfl, rfl, rfl, rfl, ?_, ?_⟩ <;>
    rw [abs_le] <;> constructor <;> norm_num

/-- C10: a depth of `0` is falsy in the client guard, so `lineageApi.get`
sends the request without any `depth` query parameter — the URL is identical
to the one for an absent depth option, silently deferring to the server
default; every positive depth is included verbatim as `depth=<n>`. -/
theorem lineageApi_depth_param (u : String) (dir : Option String) (n : Int) :
    lineageQueryParams dir (some 0) = lineageQueryParams dir none ∧
    lineageGetUrl u dir (some 0) = lineageGetUrl u dir none ∧
    (∀ p ∈ lineageQueryParams dir (some 0), p.1 ≠ "depth") ∧
    (0 < n → ("depth", toString n) ∈ lineageQueryParams dir (some n)) := by
  have hps : lineageQueryParams dir (some 0) = lineageQueryParams dir none := by
    simp [lineageQueryParams]
  refine ⟨hps, by rw [lineageGetUrl, lineageGetUrl, hps], ?_, ?_⟩
  · intro p hp
    rw [hps] at hp
    simp only [lineageQueryParams, List.append_nil] at hp
    match dir with
    | none => simp at hp
    | some dd =>
      by_cases hdd : dd = "" <;> simp [hdd] at hp
      rw [hp]
      simp
  · intro hn
    have hn0 : ¬ (n = 0) := by omega
    simp only [lineageQueryParams, hn0, if_false]
    exact List.mem_append_right _ (List.mem_singleton.mpr rfl)

/-- C10 witness: at depth 3 the parameter `depth=3` is present. -/
theorem lineageApi_depth_param_witness :
    (0 : Int) < 3 ∧
    ("depth", toString (3 : Int)) ∈ lineageQueryParams (some "full") (some 3) :=
  ⟨by norm_num, (lineageApi_depth_param "p1" (some "full") 3).2.2.2 (by norm_num)⟩

theorem mkFlowEdges_endpoints (es : List LineageEdge) (i : Nat) :
    (mkFlowEdges es i).map (fun e => (e.source, e.target)) =
      es.map (fun e => (e.source, e.target)) := by
  induction es generalizing i with
  | nil => rfl
  | cons e rest ih => simp [mkFlowEdges, ih]

/-- C2 counterexample: on a graph with the single node `a` and an edge
`a → b` whose target id `b` matches no node, `getDAGLayout` keeps the
dangling edge in its output edge list instead of dropping it. -/
theorem dangling_edge_kept :
    ((getDAGLayout dagreConst [nodeA] [edgeAB]).edges).map
        (fun e => (e.source, e.target)) = [("a", "b")] ∧
    ((getDAGLayout dagreConst [nodeA] [edgeAB]).nodes).map FlowNode.id = ["a"] ∧
    ¬ ("b" ∈ ((getDAGLayout dagreConst [nodeA] [edgeAB]).nodes).map FlowNode.id) := by
  refine ⟨rfl, rfl, ?_⟩
  intro h
  rw [show ((getDAGLayout dagreConst [nodeA] [edgeAB]).nodes).map FlowNode.id
        = ["a"] from rfl] at h
  simp at h

/-- C2 amended: `getDAGLayout` performs no dangling-edge filtering at all —
every input edge, dangling or not, reappears in the output edge list in the
same position with its endpoints unchanged; the output never fails and has
exactly one edge per input edge.  (Validity of the endpoints is neither
checked nor required by the repository's own code; the edges are also handed
verbatim to the external dagre library.) -/
theorem getDAGLayout_edges_passthrough (dagreF : DagreFun)
    (ns : List LineageNode) (es : List LineageEdge) :
    ((getDAGLayout dagreF ns es).edges).map (fun e => (e.source, e.target)) =
      es.map (fun e => (e.source, e.target)) ∧
    ((getDAGLayout dagreF ns es).edges).length = es.length := by
  refine ⟨mkFlowEdges_endpoints es 0, ?_⟩
  have h := congrArg List.length (mkFlowEdges_endpoints es 0)
  simpa using h

/-- C3: the layout is deterministic — two runs of `getDAGLayout` on equal
traversal outputs (same node list, same edge list) yield equal node
positions, equal edge lists, and equal domain groups.  The embedding is a
pure function of its inputs; the only iteration orders involved (array
order and JS `Map` insertion order) are fixed by the input. -/
theorem getDAGLayout_deterministic (dagreF : DagreFun)
    (ns₁ es₁ ns₂ es₂) (hn : ns₁ = ns₂) (he : es₁ = es₂) :
    (getDAGLayout dagreF ns₁ es₁).nodes = (getDAGLayout dagreF ns₂ es₂).nodes ∧
    (getDAGLayout dagreF ns₁ es₁).edges = (getDAGLayout dagreF ns₂ es₂).edges ∧
    (getDAGLayout dagreF ns₁ es₁).domainGroups =
      (getDAGLayout dagreF ns₂ es₂).domainGroups := by
  subst hn; subst he; exact ⟨rfl, rfl, rfl⟩

/-- C3 witness: two runs on a concrete two-node graph agree. -/
theorem getDAGLayout_deterministic_witness :
    (getDAGLayout dagreConst [nodeA, nodeB1] [edgeAB]).nodes =
      (getDAGLayout dagreConst [nodeA, nodeB1] [edgeAB]).nodes ∧
    (getDAGLayout dagreConst [nodeA, nodeB1] [edgeAB]).edges =
      (getDAGLayout dagreConst [nodeA, nodeB1] [edgeAB]).edges ∧
    (getDAGLayout dagreConst [nodeA, nodeB1] [edgeAB]).domainGroups =
      (getDAGLayout dagreConst [nodeA, nodeB1] [edgeAB]).domainGroups :=
  getDAGLayout_deterministic dagreConst _ _ _ _ rfl rfl

/-- C6 counterexample: for a lone node whose dagre-reported center is
`(140, 90)`, the stored position is `(50, 50)` — the top-left corner, offset
from the center by half the node extents — so the position stored on the
laid-out node does not denote the node's center point. -/
theorem position_not_center :
    ((getDAGLayout dagreLone [nodeA] []).nodes).map FlowNode.position =
      [(50, 50)] ∧
    dagreLone (dagreNodes [nodeA]) (dagreEdges []) "a" = (140, 90) ∧
    ¬ (((50 : ℚ), (50 : ℚ)) = ((140 : ℚ), (90 : ℚ))) := by
  refine ⟨?_, rfl, by norm_num⟩
  show [((140 : ℚ) - NODE_WIDTH / 2, (90 : ℚ) - NODE_HEIGHT / 2)] = [(50, 50)]
  norm_num [NODE_WIDTH, NODE_HEIGHT]

/-- C6 amended: the position stored on every laid-out node is the top-left
corner of the node's box, obtained by shifting the center reported by dagre
left by `NODE_WIDTH / 2` and up by `NODE_HEIGHT / 2` (React Flow anchors
nodes at the top-left corner; dagre reports centers). -/
theorem position_is_corner (dagreF : DagreFun) (ns : List LineageNode)
    (es : List LineageEdge) :
    ((getDAGLayout dagreF ns es).nodes).map FlowNode.position =
      ns.map (fun n =>
        ((dagreF (dagreNodes ns) (dagreEdges es) n.uri).1 - NODE_WIDTH / 2,
         (dagreF (dagreNodes ns) (dagreEdges es) n.uri).2 - NODE_HEIGHT / 2)) := by
  show (layoutNodes dagreF ns es).map FlowNode.position = _
  rw [layoutNodes, List.map_map]
  rfl
/-! ### Domain-map lemmas -/

theorem entryMembers_nil (d : String) : entryMembers [] d = [] := rfl

theorem entryMembers_cons (k lb : String) (ms : List FlowNode)
    (rest : DomainMap) (d : String) :
    entryMembers ((k, lb, ms) :: rest) d =
      if k = d then ms else entryMembers rest d := rfl

theorem mkGroups_nil (colorIndex : Nat) : mkGroups [] colorIndex = [] := rfl

theorem mkGroups_cons (k lb : String) (ms : List FlowNode) (rest : DomainMap)
    (colorIndex : Nat) :
    mkGroups ((k, lb, ms) :: rest) colorIndex =
      if 1 < ms.length then
        groupOf k lb ms colorIndex :: mkGroups rest (colorIndex + 1)
      else mkGroups rest colorIndex := rfl

theorem entryMembers_of_not_mem (m : DomainMap) (d : String)
    (h : d ∉ m.map (fun p => p.1)) : entryMembers m d = [] := by
  induction m with
  | nil => rfl
  | cons e rest ih =>
    obtain ⟨k, lb, ms⟩ := e
    rw [List.map_cons, List.mem_cons] at h
    push_neg at h
    rw [entryMembers_cons, if_neg (fun hc : k = d => h.1 hc.symm)]
    exact ih h.2

theorem entryMembers_append (m l : DomainMap) (d : String) :
    entryMembers (m ++ l) d =
      if d ∈ m.map (fun p => p.1) then entryMembers m d
      else entryMembers l d := by
  induction m with
  | nil => simp [entryMembers_nil]
  | cons e rest ih =>
    obtain ⟨k, lb, ms⟩ := e
    simp only [List.cons_append, entryMembers_cons, List.map_cons,
      List.mem_cons]
    by_cases hk : k = d
    · subst hk
      simp
    · have hdk : ¬ d = k := fun hc => hk hc.symm
      simp only [if_neg hk, ih, hdk, false_or]

theorem entryMembers_push (m : DomainMap) (key : String) (n : FlowNode)
    (d : String) :
    entryMembers (m.map (fun p =>
        if p.1 = key then (p.1, p.2.1, p.2.2 ++ [n]) else p)) d =
      entryMembers m d ++
        (if d = key ∧ d ∈ m.map (fun p => p.1) then [n] else []) := by
  induction m with
  | nil => simp [entryMembers_nil]
  | cons e rest ih =>
    obtain ⟨k, lb, ms⟩ := e
    simp only [List.map_cons, List.mem_cons]
    by_cases hkk : k = key
    · simp only [if_pos hkk, entryMembers_cons]
      by_cases hkd : k = d
      · subst hkd
        simp [hkk]
      · have hdk : ¬ d = k := fun hc => hkd hc.symm
        simp only [if_neg hkd, ih, hdk, false_or]
    · simp only [if_neg hkk, entryMembers_cons]
      by_cases hkd : k = d
      · subst hkd
        simp [hkk]
      · have hdk : ¬ d = k := fun hc => hkd hc.symm
        simp only [if_neg hkd, ih, hdk, false_or]

theorem any_key_iff (m : DomainMap) (key : String) :
    m.any (fun p => p.1 == key) = true ↔ key ∈ m.map (fun p => p.1) := by
  rw [List.any_eq_true]
  constructor
  · rintro ⟨p, hp, he⟩
    rw [beq_iff_eq] at he
    exact he ▸ List.mem_map_of_mem _ hp
  · intro hmem
    obtain ⟨p, hp, he⟩ := List.mem_map.mp hmem
    exact ⟨p, hp, by rw [beq_iff_eq]; exact he⟩

theorem entryMembers_addDomain (m : DomainMap) (n : FlowNode) (d : String) :
    entryMembers (addDomain m n) d =
      entryMembers m d ++ (if domainKey n = d then [n] else []) := by
  simp only [addDomain]
  by_cases h : m.any (fun p => p.1 == domainKey n) = true
  · rw [if_pos h, entryMembers_push]
    have hmem : domainKey n ∈ m.map (fun p => p.1) := (any_key_iff _ _).mp h
    by_cases hd : d = domainKey n
    · rw [if_pos ⟨hd, hd ▸ hmem⟩, if_pos hd.symm]
    · rw [if_neg (fun hc => hd hc.1), if_neg (fun hc => hd hc.symm)]
  · rw [if_neg h, entryMembers_append]
    have hnot : domainKey n ∉ m.map (fun p => p.1) := fun hc =>
      h ((any_key_iff _ _).mpr hc)
    by_cases hd : d ∈ m.map (fun p => p.1)
    · have hne : ¬ domainKey n = d := fun hc => hnot (hc ▸ hd)
      rw [if_pos hd, if_neg hne, List.append_nil]
    · rw [if_neg hd, entryMembers_of_not_mem m d hd, entryMembers_cons]
      by_cases hk : domainKey n = d
      · simp [hk]
      · simp [hk, entryMembers_nil]

theorem entryMembers_foldl (ns : List FlowNode) (m : DomainMap) (d : String) :
    entryMembers (ns.foldl addDomain m) d =
      entryMembers m d ++ ns.filter (fun n => domainKey n == d) := by
  induction ns generalizing m with
  | nil => simp
  | cons n rest ih =>
    rw [List.foldl_cons, ih, entryMembers_addDomain, List.append_assoc,
      List.filter_cons]
    by_cases hd : domainKey n = d
    · simp [hd]
    · simp [hd]

theorem entryMembers_buildDomainMap (ns : List FlowNode) (d : String) :
    entryMembers (buildDomainMap ns) d =
      ns.filter (fun n => domainKey n == d) := by
  rw [buildDomainMap, entryMembers_foldl]
  rfl

theorem keys_addDomain (m : DomainMap) (n : FlowNode) :
    (addDomain m n).map (fun p => p.1) =
      if domainKey n ∈ m.map (fun p => p.1) then m.map (fun p => p.1)
      else m.map (fun p => p.1) ++ [domainKey n] := by
  simp only [addDomain]
  by_cases h : m.any (fun p => p.1 == domainKey n) = true
  · rw [if_pos h, if_pos ((any_key_iff _ _).mp h), List.map_map]
    apply List.map_congr_left
    intro p _
    simp only [Function.comp_apply]
    by_cases hp : p.1 = domainKey n
    · rw [if_pos hp]
    · rw [if_neg hp]
  · rw [if_neg h, if_neg (fun hc => h ((any_key_iff _ _).mpr hc)),
      List.map_append]
    rfl

theorem keys_nodup_addDomain (m : DomainMap) (n : FlowNode)
    (h : (m.map (fun p => p.1)).Nodup) :
    ((addDomain m n).map (fun p => p.1)).Nodup := by
  rw [keys_addDomain]
  by_cases hmem : domainKey n ∈ m.map (fun p => p.1)
  · rwa [if_pos hmem]
  · rw [if_neg hmem]
    simp [List.nodup_append, h, hmem]

theorem keys_nodup_foldl (ns : List FlowNode) (m : DomainMap)
    (h : (m.map (fun p => p.1)).Nodup) :
    ((ns.foldl addDomain m).map (fun p => p.1)).Nodup := by
  induction ns generalizing m with
  | nil => exact h
  | cons n rest ih => exact ih _ (keys_nodup_addDomain m n h)

theorem keys_buildDomainMap_nodup (ns : List FlowNode) :
    ((buildDomainMap ns).map (fun p => p.1)).Nodup :=
  keys_nodup_foldl ns [] (by simp)

theorem keys_foldl_firstSeen (ns : List FlowNode) (m : DomainMap) :
    (ns.foldl addDomain m).map (fun p => p.1) =
      (ns.map domainKey).foldl
        (fun acc k => if k ∈ acc then acc else acc ++ [k])
        (m.map (fun p => p.1)) := by
  induction ns generalizing m with
  | nil => rfl
  | cons n rest ih =>
    rw [List.foldl_cons, List.map_cons, List.foldl_cons, ih, keys_addDomain]

theorem keys_buildDomainMap (ns : List FlowNode) :
    (buildDomainMap ns).map (fun p => p.1) =
      firstSeen (ns.map domainKey) := by
  rw [buildDomainMap, keys_foldl_firstSeen, firstSeen]
  rfl

/-! ### mkGroups lemmas -/

theorem mkGroups_count (m : DomainMap) (colorIndex : Nat) (d : String)
    (h : (m.map (fun p => p.1)).Nodup) :
    ((mkGroups m colorIndex).filter (fun g => g.domain == d)).length =
      if 1 < (entryMembers m d).length then 1 else 0 := by
  induction m generalizing colorIndex with
  | nil => simp [mkGroups_nil, entryMembers_nil]
  | cons e rest ih =>
    obtain ⟨k, lb, ms⟩ := e
    rw [List.map_cons, List.nodup_cons] at h
    obtain ⟨hk, hrest⟩ := h
    by_cases hq : 1 < ms.length
    · rw [mkGroups_cons, if_pos hq, entryMembers_cons]
      by_cases hkd : k = d
      · subst hkd
        rw [List.filter_cons_of_pos (by simp [groupOf]),
          List.length_cons, if_pos rfl, if_pos hq,
          ih (colorIndex + 1) hrest, entryMembers_of_not_mem rest k hk]
        simp
      · rw [List.filter_cons_of_neg (by simp [groupOf, hkd]),
          if_neg hkd, ih (colorIndex + 1) hrest]
    · rw [mkGroups_cons, if_neg hq, entryMembers_cons,
        ih colorIndex hrest]
      by_cases hkd : k = d
      · subst hkd
        rw [entryMembers_of_not_mem rest k hk, if_pos rfl]
        simp [hq]
      · rw [if_neg hkd]

theorem mkGroups_colors (m : DomainMap) (colorIndex : Nat) :
    (mkGroups m colorIndex).map DomainGroup.color =
      (List.range (mkGroups m colorIndex).length).map
        (fun k => DOMAIN_COLORS.getD
          ((colorIndex + k) % DOMAIN_COLORS.length) "") := by
  induction m generalizing colorIndex with
  | nil => rfl
  | cons e rest ih =>
    obtain ⟨k, lb, ms⟩ := e
    by_cases hq : 1 < ms.length
    · have htail : (mkGroups rest (colorIndex + 1)).map DomainGroup.color =
          (List.range (mkGroups rest (colorIndex + 1)).length).map
            ((fun k => DOMAIN_COLORS.getD
              ((colorIndex + k) % DOMAIN_COLORS.length) "") ∘ Nat.succ) := by
        rw [ih (colorIndex + 1)]
        apply List.map_congr_left
        intro j hj
        simp only [Function.comp_apply, Nat.succ_eq_add_one]
        have hj2 : colorIndex + 1 + j = colorIndex + (j + 1) := by omega
        rw [hj2]
      rw [mkGroups_cons, if_pos hq, List.map_cons, List.length_cons,
        List.range_succ_eq_map, List.map_cons, List.map_map, htail]
      simp [groupOf]
    · rw [mkGroups_cons, if_neg hq]
      exact ih colorIndex

theorem mkGroups_domains (m : DomainMap) (colorIndex : Nat)
    (h : (m.map (fun p => p.1)).Nodup) :
    (mkGroups m colorIndex).map DomainGroup.domain =
      (m.map (fun p => p.1)).filter
        (fun d => decide (1 < (entryMembers m d).length)) := by
  induction m generalizing colorIndex with
  | nil => rfl
  | cons e rest ih =>
    obtain ⟨k, lb, ms⟩ := e
    rw [List.map_cons, List.nodup_cons] at h
    obtain ⟨hk, hrest⟩ := h
    have htail : ∀ ci, (mkGroups rest ci).map DomainGroup.domain =
        (rest.map (fun p => p.1)).filter (fun d =>
          decide (1 < (entryMembers ((k, lb, ms) :: rest) d).length)) := by
      intro ci
      rw [ih ci hrest]
      apply List.filter_congr
      intro d hd
      have hne : ¬ k = d := fun hc => hk (hc ▸ hd)
      rw [entryMembers_cons, if_neg hne]
    rw [List.map_cons, List.filter_cons]
    by_cases hq : 1 < ms.length
    · rw [mkGroups_cons, if_pos hq, List.map_cons, htail (colorIndex + 1),
        if_pos (by rw [decide_eq_true_eq, entryMembers_cons, if_pos rfl]; exact hq)]
      rfl
    · rw [mkGroups_cons, if_neg hq, htail colorIndex,
        if_neg (by rw [decide_eq_true_eq, entryMembers_cons, if_pos rfl]; exact hq)]
/-! ### Bridging laid-out nodes back to the input nodes -/

theorem domainKey_toFlowNode (c : ℚ × ℚ) (n : LineageNode) :
    domainKey (toFlowNode c n) = lineageDomainKey n := by
  cases hn : n.domain_uri <;> simp [domainKey, toFlowNode, lineageDomainKey, hn]

theorem layoutNodes_map_domainKey (dagreF : DagreFun) (ns : List LineageNode)
    (es : List LineageEdge) :
    (layoutNodes dagreF ns es).map domainKey = ns.map lineageDomainKey := by
  rw [layoutNodes, List.map_map]
  apply List.map_congr_left
  intro n _
  exact domainKey_toFlowNode _ n

theorem filter_map_general {α β : Type} (g : α → β) (p : β → Bool)
    (q : α → Bool) (hpq : ∀ x, p (g x) = q x) (l : List α) :
    (l.map g).filter p = (l.filter q).map g := by
  induction l with
  | nil => rfl
  | cons x rest ih =>
    simp only [List.map_cons, List.filter_cons, hpq]
    by_cases hx : q x = true <;> simp [hx, ih]

theorem layoutNodes_filter_length (dagreF : DagreFun) (ns : List LineageNode)
    (es : List LineageEdge) (d : String) :
    ((layoutNodes dagreF ns es).filter (fun n => domainKey n == d)).length =
      (ns.filter (fun n => lineageDomainKey n == d)).length := by
  rw [layoutNodes,
    filter_map_general _ (fun n => domainKey n == d)
      (fun n => lineageDomainKey n == d)
      (fun n => by simp only [domainKey_toFlowNode]),
    List.length_map]

theorem getDAGLayout_group_count (dagreF : DagreFun) (ns : List LineageNode)
    (es : List LineageEdge) (d : String) :
    (((getDAGLayout dagreF ns es).domainGroups).filter
        (fun g => g.domain == d)).length =
      if 1 < (ns.filter (fun n => lineageDomainKey n == d)).length then 1
      else 0 := by
  show ((mkGroups (buildDomainMap (layoutNodes dagreF ns es)) 0).filter
      (fun g => g.domain == d)).length = _
  rw [mkGroups_count _ 0 d (keys_buildDomainMap_nodup _),
    entryMembers_buildDomainMap, layoutNodes_filter_length]

/-! ### Claims C1, C5, C9 -/

/-- C1: for every input, a domain bucket with exactly 1 member node yields
no bounding region, and every domain bucket with 2 or more member nodes
yields exactly one bounding region in `domainGroups` (membership counted by
the grouping key the code uses, `domainUri || 'uncategorized'`). -/
theorem domain_region_count (dagreF : DagreFun) (ns : List LineageNode)
    (es : List LineageEdge) (d : String) :
    (((getDAGLayout dagreF ns es).domainGroups).filter
        (fun g => g.domain == d)).length =
      if 2 ≤ (ns.filter (fun n => lineageDomainKey n == d)).length then 1
      else 0 :=
  getDAGLayout_group_count dagreF ns es d

/-- C5 counterexample: two nodes carrying no `domain_uri` at all are not
excluded from bounding regions — `getDAGLayout` produces exactly one domain
group for them, the synthetic `uncategorized` domain. -/
theorem uncategorized_group_exists :
    nodeA.domain_uri = none ∧ nodeB0.domain_uri = none ∧
    ((getDAGLayout dagreConst [nodeA, nodeB0] []).domainGroups).map
        DomainGroup.domain = ["uncategorized"] ∧
    ((getDAGLayout dagreConst [nodeA, nodeB0] []).domainGroups).length = 1 :=
  ⟨rfl, rfl, rfl, rfl⟩

/-- C5 amended: nodes without a domain identifier are not excluded from
bounding regions; they are bucketed under the synthetic domain key
`uncategorized` (every node whose `domain_uri` is absent gets that key), and
that bucket produces a bounding region exactly when it has 2 or more
members.  Named domains are unaffected: undomained nodes never land in a
bucket with any other key. -/
theorem uncategorized_grouping (dagreF : DagreFun) (ns : List LineageNode)
    (es : List LineageEdge) :
    (((getDAGLayout dagreF ns es).domainGroups).filter
        (fun g => g.domain == "uncategorized")).length =
      (if 2 ≤ (ns.filter
          (fun n => lineageDomainKey n == "uncategorized")).length then 1
       else 0) ∧
    ∀ n ∈ ns, n.domain_uri = none → lineageDomainKey n = "uncategorized" := by
  refine ⟨getDAGLayout_group_count dagreF ns es "uncategorized", ?_⟩
  intro n _ hn
  simp [lineageDomainKey, hn]

/-- C5 amended witness: concrete two-node instance of the amended claim. -/
theorem uncategorized_grouping_witness :
    lineageDomainKey nodeA = "uncategorized" :=
  (uncategorized_grouping dagreConst [nodeA, nodeB0] []).2 nodeA
    (by simp) rfl

/-- C9: `colorIndex` assignment cycles the fixed 5-entry palette in the
order qualifying domains are first encountered in the node list: the k-th
group's color is palette entry `k mod 5`, and the groups appear exactly in
first-encounter order of the domain keys, restricted to keys with 2 or more
member nodes.  The assignment is a pure function of the input node order
(the embedding carries no state besides the fold accumulator). -/
theorem domainGroups_palette_cycle (dagreF : DagreFun) (ns : List LineageNode)
    (es : List LineageEdge) :
    DOMAIN_COLORS.length = 5 ∧
    ((getDAGLayout dagreF ns es).domainGroups).map DomainGroup.color =
      (List.range ((getDAGLayout dagreF ns es).domainGroups).length).map
        (fun k => DOMAIN_COLORS.getD (k % DOMAIN_COLORS.length) "") ∧
    ((getDAGLayout dagreF ns es).domainGroups).map DomainGroup.domain =
      (firstSeen (ns.map lineageDomainKey)).filter
        (fun d => decide
          (1 < (ns.filter (fun n => lineageDomainKey n == d)).length)) := by
  refine ⟨rfl, ?_, ?_⟩
  · have h := mkGroups_colors (buildDomainMap (layoutNodes dagreF ns es)) 0
    simpa using h
  · show (mkGroups (buildDomainMap (layoutNodes dagreF ns es)) 0).map
        DomainGroup.domain = _
    rw [mkGroups_domains _ 0 (keys_buildDomainMap_nodup _),
      keys_buildDomainMap, layoutNodes_map_domainKey]
    apply List.filter_congr
    intro d _
    rw [entryMembers_buildDomainMap, layoutNodes_filter_length]

/-- C7 counterexample: no layout function whatsoever can make the
spec's coordinate formula hold for every input, because `getDAGLayout` hands
dagre only node ids and extents — never the depth field the formula depends
on.  Two inputs differing only in one node's depth (so the formula demands
different x for that node) produce identical dagre inputs and hence
identical positions. -/
theorem spec_coordinate_formula_refuted :
    ¬ ∃ dagreF : DagreFun, ∀ ns es,
        specCoordinateClaim ns ((getDAGLayout dagreF ns es).nodes) := by
  rintro ⟨f, h⟩
  obtain ⟨o1, h1⟩ := h [nodeA, nodeB1] []
  obtain ⟨o2, h2⟩ := h [nodeA, nodeB0] []
  have hn1 : (getDAGLayout f [nodeA, nodeB1] []).nodes =
      [toFlowNode (f (dagreNodes [nodeA, nodeB1])
        (dagreEdges ([] : List LineageEdge)) nodeA.uri) nodeA,
       toFlowNode (f (dagreNodes [nodeA, nodeB1])
        (dagreEdges ([] : List LineageEdge)) nodeB1.uri) nodeB1] := rfl
  have hn2 : (getDAGLayout f [nodeA, nodeB0] []).nodes =
      [toFlowNode (f (dagreNodes [nodeA, nodeB0])
        (dagreEdges ([] : List LineageEdge)) nodeA.uri) nodeA,
       toFlowNode (f (dagreNodes [nodeA, nodeB0])
        (dagreEdges ([] : List LineageEdge)) nodeB0.uri) nodeB0] := rfl
  have hmem1 : toFlowNode (f (dagreNodes [nodeA, nodeB1])
      (dagreEdges ([] : List LineageEdge)) nodeB1.uri) nodeB1
      ∈ (getDAGLayout f [nodeA, nodeB1] []).nodes := by
    rw [hn1]
    exact List.mem_cons_of_mem _ (List.mem_cons_self _ _)
  have hmem2 : toFlowNode (f (dagreNodes [nodeA, nodeB0])
      (dagreEdges ([] : List LineageEdge)) nodeB0.uri) nodeB0
      ∈ (getDAGLayout f [nodeA, nodeB0] []).nodes := by
    rw [hn2]
    exact List.mem_cons_of_mem _ (List.mem_cons_self _ _)
  have e1 := (h1 _ hmem1 nodeB1 (List.mem_cons_of_mem _
    (List.mem_cons_self _ _)) rfl).1
  have e2 := (h2 _ hmem2 nodeB0 (List.mem_cons_of_mem _
    (List.mem_cons_self _ _)) rfl).1
  have hdn : dagreNodes [nodeA, nodeB0] = dagreNodes [nodeA, nodeB1] := rfl
  rw [hdn] at e2
  have p1 : (toFlowNode (f (dagreNodes [nodeA, nodeB1])
      (dagreEdges ([] : List LineageEdge)) nodeB1.uri) nodeB1).position.1 =
      (f (dagreNodes [nodeA, nodeB1])
        (dagreEdges ([] : List LineageEdge)) nodeB1.uri).1 - NODE_WIDTH / 2 := rfl
  have p2 : (toFlowNode (f (dagreNodes [nodeA, nodeB1])
      (dagreEdges ([] : List LineageEdge)) nodeB0.uri) nodeB0).position.1 =
      (f (dagreNodes [nodeA, nodeB1])
        (dagreEdges ([] : List LineageEdge)) nodeB0.uri).1 - NODE_WIDTH / 2 := rfl
  rw [p1] at e1
  rw [p2] at e2
  have hbu : nodeB0.uri = nodeB1.uri := rfl
  rw [hbu] at e2
  have heq := e1.symm.trans e2
  rw [show specMinDepth [nodeA, nodeB1] = 0 from rfl,
    show specMinDepth [nodeA, nodeB0] = 0 from rfl,
    show nodeB1.depth = 1 from rfl, show nodeB0.depth = 0 from rfl] at heq
  norm_num [NODE_WIDTH, RANK_SEP] at heq

/-- C7 amended: `getDAGLayout` does not assign coordinates from the depth
field at all — it delegates them to the external dagre layout over the node
ids, fixed extents, and the edge list (configuration rankdir LR, ranksep
180, nodesep 60, margins 50), then shifts the reported centers by half the
node extents.  Consequently positions depend only on the node id sequence
and the edges: two inputs with the same ids and edges receive identical
positions whatever their depth fields. -/
theorem positions_depth_independent (dagreF : DagreFun)
    (ns ns' : List LineageNode) (es : List LineageEdge)
    (h : ns.map LineageNode.uri = ns'.map LineageNode.uri) :
    ((getDAGLayout dagreF ns es).nodes).map FlowNode.position =
      ((getDAGLayout dagreF ns' es).nodes).map FlowNode.position := by
  have h1 : dagreNodes ns = (ns.map LineageNode.uri).map
      (fun u => (u, NODE_WIDTH, NODE_HEIGHT)) := by
    rw [dagreNodes, List.map_map]
    rfl
  have h2 : dagreNodes ns' = (ns'.map LineageNode.uri).map
      (fun u => (u, NODE_WIDTH, NODE_HEIGHT)) := by
    rw [dagreNodes, List.map_map]
    rfl
  have hd : dagreNodes ns = dagreNodes ns' := by rw [h1, h2, h]
  show (layoutNodes dagreF ns es).map FlowNode.position =
    (layoutNodes dagreF ns' es).map FlowNode.position
  rw [layoutNodes, layoutNodes, List.map_map, List.map_map, hd]
  have hgen : ∀ (l : List LineageNode),
      l.map (FlowNode.position ∘ fun node =>
        toFlowNode (dagreF (dagreNodes ns') (dagreEdges es) node.uri) node) =
      (l.map LineageNode.uri).map (fun u =>
        ((dagreF (dagreNodes ns') (dagreEdges es) u).1 - NODE_WIDTH / 2,
         (dagreF (dagreNodes ns') (dagreEdges es) u).2 - NODE_HEIGHT / 2)) := by
    intro l
    rw [List.map_map]
    rfl
  rw [hgen ns, hgen ns', h]

/-- C7 amended witness: a node at depth 0 and the same node at depth 3
receive the same position. -/
theorem positions_depth_independent_witness :
    ([nodeA] : List LineageNode).map LineageNode.uri =
      ([nodeA3] : List LineageNode).map LineageNode.uri ∧
    ((getDAGLayout dagreConst [nodeA] []).nodes).map FlowNode.position =
      ((getDAGLayout dagreConst [nodeA3] []).nodes).map FlowNode.position :=
  ⟨rfl, positions_depth_independent dagreConst [nodeA] [nodeA3] [] rfl⟩

end Lineage
